import Mathlib

/-!
# Verification of the tetris-tui game engine

A shallow embedding of the game-state engine of `src/tetris-tui/src/main.rs`
(board, pieces, collision, line resolution, power-ups, session orchestration)
together with theorems settling the specification claims.

Conventions of the embedding:
* `Vec<Vec<Option<CellType>>>` becomes `List (List (Option CellType))`,
  rows addressed top (index 0) to bottom (index `HEIGHT - 1`).
* `i32` coordinates become `Int`; `as usize` casts become `usizeCast`
  (reduction mod 2^64, so negative values become huge and fail `< bound`
  checks exactly as in the source).
* Random draws (`rand::rng()`) are passed in as an explicit oracle `Rng`;
  the wall clock (`Instant`) is passed in as a natural number of
  milliseconds `now`.
* Out-of-range `Vec` indexing (a panic in the source) is modelled by
  `List.getD` / `List.set`, which are total; all theorems below only
  exercise in-range accesses.
-/

/-- Board width, `const WIDTH: usize = 10`. -/
def WIDTH : Nat := 10

/-- Board height, `const HEIGHT: usize = 20`. -/
def HEIGHT : Nat := 20

/-- The subset of `crossterm::style::Color` used by the engine. -/
inductive GColor where
  | cyan | yellow | magenta | green | red | blue | white
  deriving DecidableEq, Repr

/-- `enum TetrominoType`. -/
inductive TetrominoType where
  | I | O | T | S | Z | J | L
  deriving DecidableEq, Repr

/-- `enum PowerUpType`. -/
inductive PowerUpType where
  | Bomb | SlowTime | Ghost | Hammer | Random
  deriving DecidableEq, Repr

/-- `enum CellType`. -/
inductive CellType where
  | Normal : GColor → CellType
  | Obstacle : CellType
  | PowerUp : PowerUpType → CellType
  deriving DecidableEq, Repr

/-- `struct Tetromino`. -/
structure Tetromino where
  shape : List (List Bool)
  color : GColor
  typ : TetrominoType
  deriving DecidableEq, Repr

/-- `Tetromino::new`: the canonical shape/color for each of the seven kinds. -/
def Tetromino.new (typ : TetrominoType) : Tetromino :=
  match typ with
  | TetrominoType.I =>
    { shape := [[false, false, false, false],
                [true, true, true, true],
                [false, false, false, false],
                [false, false, false, false]],
      color := GColor.cyan, typ := typ }
  | TetrominoType.O =>
    { shape := [[true, true], [true, true]], color := GColor.yellow, typ := typ }
  | TetrominoType.T =>
    { shape := [[false, true, false], [true, true, true], [false, false, false]],
      color := GColor.magenta, typ := typ }
  | TetrominoType.S =>
    { shape := [[false, true, true], [true, true, false], [false, false, false]],
      color := GColor.green, typ := typ }
  | TetrominoType.Z =>
    { shape := [[true, true, false], [false, true, true], [false, false, false]],
      color := GColor.red, typ := typ }
  | TetrominoType.J =>
    { shape := [[true, false, false], [true, true, true], [false, false, false]],
      color := GColor.blue, typ := typ }
  | TetrominoType.L =>
    { shape := [[false, false, true], [true, true, true], [false, false, false]],
      color := GColor.white, typ := typ }

/-- `Tetromino::rotate`: 90° clockwise, `rotated[j][n-1-i] = shape[i][j]`,
so `rotated[r][c] = shape[n-1-c][r]`. -/
def Tetromino.rotate (t : Tetromino) : Tetromino :=
  let n := t.shape.length
  { t with shape :=
      (List.range n).map fun r =>
        (List.range n).map fun c => (t.shape.getD (n - 1 - c) []).getD r false }

/-- `struct Game` (the `Instant` fields are milliseconds since an arbitrary
origin; `score`, `combo`, counters are the `u32` fields, far from overflow in
every scenario considered here). -/
structure Game where
  board : List (List (Option CellType))
  current : Tetromino
  current_x : Int
  current_y : Int
  next : Tetromino
  score : Nat
  combo : Nat
  game_over : Bool
  ghost_mode : Bool
  ghost_remaining : Nat
  slow_time_active : Bool
  slow_time_end : Option Nat
  hammer_mode : Bool
  last_clear_time : Option Nat
  lines_cleared_total : Nat
  deriving DecidableEq, Repr

/-- Oracle for the random draws a single engine step can make
(`rand::rng()` calls inside `clear_lines`, `spawn_obstacle`,
`spawn_power_up` and the `Random` power-up dispatch). -/
structure Rng where
  bombChoice : Fin 4
  obstacleRoll : Bool
  powerRoll : Bool
  obstacleX : Fin 10
  powerX : Fin 10
  powerKind : Fin 5
  deriving DecidableEq, Repr

/-- Rust `as usize` on an `i32`-valued expression: reduce mod 2^64.
Negative values become huge naturals that fail every `< WIDTH`/`< HEIGHT`
bound check, exactly as in the source. -/
def usizeCast (i : Int) : Nat := (i % (2 ^ 64 : Int)).toNat

/-- Read board cell `(row y, column x)`; out of range reads give `none`. -/
def cellN (b : List (List (Option CellType))) (y x : Nat) : Option CellType :=
  (b.getD y []).getD x none

/-- Write board cell `(row y, column x)`; out of range writes are dropped. -/
def setCell (b : List (List (Option CellType))) (y x : Nat)
    (v : Option CellType) : List (List (Option CellType)) :=
  b.set y ((b.getD y []).set x v)

/-- An empty board row, `vec![None; WIDTH]`. -/
def emptyRow : List (Option CellType) := List.replicate WIDTH none

/-- The legality check for one shape cell of `Game::can_move` (the body of
the nested loop; vacuously true for unoccupied cells). -/
def cellOk (g : Game) (dx dy : Int) (i j : Nat) : Bool :=
  if (g.current.shape.getD i []).getD j false then
    let nx := g.current_x + (j : Int) + dx
    let ny := g.current_y + (i : Int) + dy
    if nx < 0 ∨ (WIDTH : Int) ≤ nx ∨ (HEIGHT : Int) ≤ ny then false
    else if 0 ≤ ny then
      match cellN g.board ny.toNat nx.toNat with
      | some CellType.Obstacle => g.ghost_mode
      | some (CellType.Normal _) => g.ghost_mode
      | _ => true
    else true
  else true

/-- `Game::can_move(dx, dy)`. -/
def canMove (g : Game) (dx dy : Int) : Bool :=
  (List.range g.current.shape.length).all fun i =>
    (List.range ((g.current.shape.getD i []).length)).all fun j =>
      cellOk g dx dy i j

/-- `Game::move_piece(dx, dy)` (the state part; its boolean result is
`canMove g dx dy`). -/
def movePiece (g : Game) (dx dy : Int) : Game :=
  if canMove g dx dy then
    { g with current_x := g.current_x + dx, current_y := g.current_y + dy }
  else g

/-- `Game::rotate_piece`: install the rotated clone, revert if illegal. -/
def rotatePiece (g : Game) : Game :=
  let rotatedG := { g with current := g.current.rotate }
  if canMove rotatedG 0 0 then rotatedG else g

/-- C9 helper: rotating four times. -/
def rotate4 (t : Tetromino) : Tetromino :=
  t.rotate.rotate.rotate.rotate

/-- **C9.** For every piece kind, applying the 90° clockwise rotation
(`rotated[j][n-1-i] = original[i][j]`) four times returns the piece's shape
to its original value: `rotate⁴(piece) = piece`. -/
theorem rotate_four_times_id (t : TetrominoType) :
    rotate4 (Tetromino.new t) = Tetromino.new t := by
  cases t <;> rfl

/-- The occupied cells `(i, j)` of a shape matrix, in the source's loop
order (`i` outer, `j` inner). -/
def occupiedCells (shape : List (List Bool)) : List (Nat × Nat) :=
  (List.range shape.length).flatMap fun i =>
    (List.range ((shape.getD i []).length)).filterMap fun j =>
      if (shape.getD i []).getD j false then some (i, j) else none

/-- The first half of `Game::lock_piece`: stamp the current piece's occupied
cells onto the board as `Normal(color)` (rows `>= HEIGHT` are skipped). -/
def stampPiece (g : Game) : Game :=
  let b1 :=
    (occupiedCells g.current.shape).foldl
      (fun b ij =>
        let x := usizeCast (g.current_x + (ij.2 : Int))
        let y := usizeCast (g.current_y + (ij.1 : Int))
        if y < HEIGHT then setCell b y x (some (CellType.Normal g.current.color))
        else b)
      g.board
  { g with board := b1 }

/-- The gather loop of `Game::collect_power_ups`: every `(x, y, kind)` such
that the current piece occupies cell `(x, y)` and the board holds a power-up
there. -/
def collectList (g : Game) : List (Nat × Nat × PowerUpType) :=
  (occupiedCells g.current.shape).filterMap fun ij =>
    let x := usizeCast (g.current_x + (ij.2 : Int))
    let y := usizeCast (g.current_y + (ij.1 : Int))
    if y < HEIGHT then
      match cellN g.board y x with
      | some (CellType.PowerUp p) => some (x, y, p)
      | _ => none
    else none

/-- The `x`-coordinate of the bomb centroid: the `i32` (truncating) average
of the locking piece's occupied cells' board columns. -/
def bombCx (g : Game) : Int :=
  Int.tdiv
    ((occupiedCells g.current.shape).foldl
      (fun s ij => s + (g.current_x + (ij.2 : Int))) 0)
    ((occupiedCells g.current.shape).length : Int)

/-- The `y`-coordinate of the bomb centroid. -/
def bombCy (g : Game) : Int :=
  Int.tdiv
    ((occupiedCells g.current.shape).foldl
      (fun s ij => s + (g.current_y + (ij.1 : Int))) 0)
    ((occupiedCells g.current.shape).length : Int)

/-- The 5×5 blast offsets, in the source's loop order (`dy` outer). -/
def bombWindow : List (Int × Int) :=
  ([-2, -1, 0, 1, 2] : List Int).flatMap fun dy =>
    ([-2, -1, 0, 1, 2] : List Int).map fun dx => (dx, dy)

/-- One step of the blast loop: clear the cell at the offset if it is an
in-bounds `Normal` cell, scoring 10 points. -/
def bombClearStep (cx cy : Int) (h : Game) (d : Int × Int) : Game :=
  let x := usizeCast (cx + d.1)
  let y := usizeCast (cy + d.2)
  if x < WIDTH ∧ y < HEIGHT then
    match cellN h.board y x with
    | some (CellType.Normal _) =>
      { h with board := setCell h.board y x none, score := h.score + 10 }
    | _ => h
  else h

/-- The `PowerUpType::Bomb` arm of `Game::activate_power_up`: centroid of the
current piece's occupied cells, then clear every `Normal` cell in the 5×5
block around it, 10 points apiece. -/
def bombBlast (g : Game) : Game :=
  if 0 < (occupiedCells g.current.shape).length then
    bombWindow.foldl (bombClearStep (bombCx g) (bombCy g)) g
  else g

/-- `Game::activate_power_up` for the four non-`Random` kinds. -/
def activateBasic (g : Game) (now : Nat) (p : PowerUpType) : Game :=
  match p with
  | PowerUpType.Bomb => bombBlast g
  | PowerUpType.SlowTime =>
    { g with slow_time_active := true, slow_time_end := some (now + 10000) }
  | PowerUpType.Ghost => { g with ghost_mode := true, ghost_remaining := 3 }
  | PowerUpType.Hammer => { g with hammer_mode := true }
  | PowerUpType.Random => g

/-- `Game::activate_power_up`: `Random` delegates to a uniformly drawn
non-`Random` kind, everything else acts directly. -/
def activatePowerUp (g : Game) (now : Nat) (rng : Rng) (p : PowerUpType) : Game :=
  match p with
  | PowerUpType.Random =>
    activateBasic g now
      (([PowerUpType.Bomb, PowerUpType.SlowTime, PowerUpType.Ghost,
         PowerUpType.Hammer] : List PowerUpType).get
        (Fin.cast (by rfl) rng.bombChoice))
  | q => activateBasic g now q

/-- `Game::collect_power_ups`: gather, then activate each collected power-up
and convert its cell to `Normal` with the piece's color. -/
def collectPowerUps (g : Game) (now : Nat) (rng : Rng) : Game :=
  let color := g.current.color
  (collectList g).foldl
    (fun h t =>
      let h1 := activatePowerUp h now rng t.2.2
      { h1 with board := setCell h1.board t.2.1 t.1 (some (CellType.Normal color)) })
    g

/-- A row is full iff every cell is `Some(CellType::Normal(_))`. -/
def isFullRow (r : List (Option CellType)) : Bool :=
  r.all fun c =>
    match c with
    | some (CellType.Normal _) => true
    | _ => false

/-- The full-row scan of `Game::clear_lines`: indices `0 ≤ y < HEIGHT` with
`board[y]` full, in ascending order. -/
def fullRows (b : List (List (Option CellType))) : List Nat :=
  (List.range HEIGHT).filter fun y => isFullRow (b.getD y [])

/-- The removal loop of `Game::clear_lines`:
`for line in lines.iter().rev() { board.remove(*line); board.insert(0, empty) }`. -/
def removeLines (b : List (List (Option CellType))) (lines : List Nat) :
    List (List (Option CellType)) :=
  lines.reverse.foldl (fun acc line => emptyRow :: acc.eraseIdx line) b

/-- One `y` step of `Game::apply_gravity`'s inner loops, applied to a pair of
adjacent rows (`upper` = row `y`, `lower` = row `y + 1`); the `x` loop acts
pointwise. -/
def stepPair : List (Option CellType) → List (Option CellType) →
    List (Option CellType) × List (Option CellType)
  | [], l2 => ([], l2)
  | a :: t1, [] => (a :: t1, [])
  | a :: t1, b :: t2 =>
    if a.isSome && b.isNone
    then (none :: (stepPair t1 t2).1, a :: (stepPair t1 t2).2)
    else (a :: (stepPair t1 t2).1, b :: (stepPair t1 t2).2)

/-- One outer pass of `Game::apply_gravity`: the loop
`for y in (0..HEIGHT - 1).rev()` processes the bottom pair of rows first, so
it is structural recursion that transforms the tail before the head. -/
def gravityPass : List (List (Option CellType)) → List (List (Option CellType))
  | [] => []
  | r :: rest =>
    match gravityPass rest with
    | [] => [r]
    | r2 :: rs =>
      let p := stepPair r r2
      p.1 :: p.2 :: rs

/-- `Game::apply_gravity`: `HEIGHT` bubble passes. -/
def applyGravity (b : List (List (Option CellType))) :
    List (List (Option CellType)) :=
  gravityPass^[HEIGHT] b

/-- `Game::spawn_obstacle`: one obstacle on the bottom row if its cell is
free. -/
def spawnObstacle (g : Game) (rng : Rng) : Game :=
  let x := (rng.obstacleX : Nat)
  let y := HEIGHT - 1
  if cellN g.board y x = none then
    { g with board := setCell g.board y x (some CellType.Obstacle) }
  else g

/-- `Game::spawn_power_up`: one power-up on the bottom row if its cell is
free. -/
def spawnPowerUp (g : Game) (rng : Rng) : Game :=
  let x := (rng.powerX : Nat)
  let y := HEIGHT - 1
  if cellN g.board y x = none then
    { g with board := setCell g.board y x (some (CellType.PowerUp
        (([PowerUpType.Bomb, PowerUpType.SlowTime, PowerUpType.Ghost,
           PowerUpType.Hammer, PowerUpType.Random] : List PowerUpType).get
          (Fin.cast (by rfl) rng.powerKind)))) }
  else g

/-- The combo update performed by `Game::clear_lines` when at least one row
is full: increment within the 3-second window, else reset; no previous clear
leaves `combo` untouched. -/
def comboAfter (g : Game) (now : Nat) : Nat :=
  match g.last_clear_time with
  | some last => if now - last < 3000 then g.combo + 1 else 0
  | none => g.combo

/-- Base score by number of simultaneously cleared rows. -/
def baseScore (k : Nat) : Nat :=
  match k with
  | 1 => 100
  | 2 => 300
  | 3 => 500
  | 4 => 800
  | _ => 0

/-- `Game::clear_lines`. -/
def clearLines (g : Game) (now : Nat) (rng : Rng) : Game :=
  let lines := fullRows g.board
  if lines.isEmpty then { g with combo := 0 }
  else
    let combo1 := comboAfter g now
    let k := lines.length
    let total1 := g.lines_cleared_total + k
    let score1 := g.score + baseScore k * (1 + combo1)
    let board1 := applyGravity (removeLines g.board lines)
    let g1 := { g with combo := combo1, last_clear_time := some now,
                       lines_cleared_total := total1, score := score1,
                       board := board1 }
    let g2 := if total1 % 5 = 0 ∧ rng.obstacleRoll then spawnObstacle g1 rng else g1
    if rng.powerRoll then spawnPowerUp g2 rng else g2

/-- `Game::spawn_new_piece`: promote `next` to current at the spawn anchor,
draw a fresh `next` (the random kind is the `nextTyp` oracle), and set
`game_over` when the spawn position is illegal. -/
def spawnNewPiece (g : Game) (nextTyp : TetrominoType) : Game :=
  let g1 := { g with current := g.next,
                     current_x := ((WIDTH / 2 - 2 : Nat) : Int),
                     current_y := 0,
                     next := Tetromino.new nextTyp }
  if !canMove g1 0 0 then { g1 with game_over := true } else g1

/-- `Game::lock_piece`: stamp, collect power-ups, clear lines, spawn the next
piece, then decrement the ghost counter if ghost mode is active. -/
def lockPiece (g : Game) (now : Nat) (rng : Rng) (nextTyp : TetrominoType) : Game :=
  let g4 := spawnNewPiece (clearLines (collectPowerUps (stampPiece g) now rng) now rng) nextTyp
  if g4.ghost_mode && decide (0 < g4.ghost_remaining) then
    let r := g4.ghost_remaining - 1
    if r = 0 then { g4 with ghost_remaining := r, ghost_mode := false }
    else { g4 with ghost_remaining := r }
  else g4

/-- `Game::use_hammer(line)`: for `line < HEIGHT`, remove the row, insert an
empty row at the top, disarm the hammer, add 50 points, settle gravity. -/
def useHammer (g : Game) (line : Nat) : Game :=
  if line < HEIGHT then
    { g with board := applyGravity (emptyRow :: g.board.eraseIdx line),
             hammer_mode := false,
             score := g.score + 50 }
  else g

/-! ## Concrete fixtures used by witnesses and counterexamples -/

/-- A fully `Normal`-filled row. -/
def fullRowRed : List (Option CellType) :=
  List.replicate WIDTH (some (CellType.Normal GColor.red))

/-- The all-empty board. -/
def emptyBoard : List (List (Option CellType)) := List.replicate HEIGHT emptyRow

/-- An rng oracle whose probabilistic rolls all come out `false`. -/
def rngOff : Rng :=
  { bombChoice := 0, obstacleRoll := false, powerRoll := false,
    obstacleX := 0, powerX := 0, powerKind := 0 }

/-- A quiescent base session: empty board, `I` current piece at the spawn
anchor, all counters zero. -/
def baseGame : Game :=
  { board := emptyBoard
    current := Tetromino.new TetrominoType.I
    current_x := 3, current_y := 0
    next := Tetromino.new TetrominoType.O
    score := 0, combo := 0, game_over := false
    ghost_mode := false, ghost_remaining := 0
    slow_time_active := false, slow_time_end := none
    hammer_mode := false, last_clear_time := none, lines_cleared_total := 0 }

/-- A board whose bottom two rows (indices 18 and 19) are both full. -/
def twoFullGame : Game :=
  { baseGame with board := List.replicate 18 emptyRow ++ [fullRowRed, fullRowRed] }

/-- A session that has just reached game over: an obstacle sits on a spawn
cell of the current `O` piece (anchor `(3, 0)`, occupying columns 3–4 of
rows 0–1). -/
def gameOverGame : Game :=
  { baseGame with
    board := setCell emptyBoard 0 3 (some CellType.Obstacle)
    current := Tetromino.new TetrominoType.O
    game_over := true }

/-! ## C1: multi-row clears remove the wrong rows -/

/-- **C1** (failing evaluation). On a board whose rows 18 and 19 are the only
full rows, `clear_lines` leaves a full row on the board: the reversed
interleaved `remove`/`insert(0)` loop deletes original rows 19 and 17, so the
original full row 18 survives (at index 19) — contradicting "every one of
those full rows is removed". -/
theorem clear_lines_two_full_rows_leaves_full_row :
    fullRows twoFullGame.board = [18, 19] ∧
      fullRows ((clearLines twoFullGame 0 rngOff).board) = [19] := by
  constructor <;> rfl

/-! ## C2: game-over detection and (non-)guarding of commands -/

/-- **C2** (amended). `spawn_new_piece` sets `game_over` exactly when the
freshly promoted piece fails the placement check at the spawn anchor
(`can_move(0, 0)`); the flag is never cleared. The engine's mutating
commands themselves do not consult `game_over` (see the counterexample
below); the post-game-over quiescence is enforced only by the excluded
shell loop, which stops issuing commands. -/
theorem spawn_sets_game_over_iff_blocked (g : Game) (t : TetrominoType) :
    (spawnNewPiece g t).game_over
      = (g.game_over
          || !canMove { g with current := g.next,
                               current_x := ((WIDTH / 2 - 2 : Nat) : Int),
                               current_y := 0,
                               next := Tetromino.new t } 0 0) := by
  unfold spawnNewPiece
  cases h : canMove { g with current := g.next,
                             current_x := ((WIDTH / 2 - 2 : Nat) : Int),
                             current_y := 0,
                             next := Tetromino.new t } 0 0 <;>
    simp [h]

/-- **C2** (counterexample). A session with `game_over = true` on which
`move_piece(1, 0)` still mutates the state: the claim's "every further
mutating command is a no-op" is false of the engine. -/
theorem game_over_move_still_mutates :
    gameOverGame.game_over = true ∧ movePiece gameOverGame 1 0 ≠ gameOverGame := by
  constructor
  · rfl
  · decide

/-! ## C4: scoring of simultaneous clears -/

/-- `spawn_obstacle` never changes the score. -/
theorem spawnObstacle_score (g : Game) (rng : Rng) :
    (spawnObstacle g rng).score = g.score := by
  unfold spawnObstacle
  dsimp only
  split <;> rfl

/-- `spawn_power_up` never changes the score. -/
theorem spawnPowerUp_score (g : Game) (rng : Rng) :
    (spawnPowerUp g rng).score = g.score := by
  unfold spawnPowerUp
  dsimp only
  split <;> rfl

/-- **C4.** When `clear_lines` finds `k ≥ 1` full rows, the score grows by
exactly `baseScore k * (1 + combo)` where `combo` is the value after the
3-second combo-window update (`comboAfter`); in particular 100/300/500/800
points for 1/2/3/4 rows at combo 0. -/
theorem clear_lines_score_formula (g : Game) (now : Nat) (rng : Rng)
    (h : fullRows g.board ≠ []) :
    (clearLines g now rng).score
      = g.score + baseScore (fullRows g.board).length * (1 + comboAfter g now) := by
  unfold clearLines
  rw [if_neg (by simpa [List.isEmpty_iff] using h)]
  dsimp only
  split <;> split <;> simp [spawnObstacle_score, spawnPowerUp_score]

/-- **C4** (witness). A single full bottom row at combo 0 with no previous
clear scores exactly 100 points. -/
theorem clear_lines_score_formula_witness :
    fullRows (List.replicate 19 emptyRow ++ [fullRowRed]) ≠ [] ∧
      (clearLines { baseGame with board := List.replicate 19 emptyRow ++ [fullRowRed] }
          0 rngOff).score
        = baseGame.score
            + baseScore (fullRows (List.replicate 19 emptyRow ++ [fullRowRed])).length
              * (1 + comboAfter { baseGame with
                  board := List.replicate 19 emptyRow ++ [fullRowRed] } 0) :=
  ⟨by decide,
   clear_lines_score_formula
     { baseGame with board := List.replicate 19 emptyRow ++ [fullRowRed] } 0 rngOff
     (by decide)⟩

/-! ## C6: no-op on boards without full rows -/

/-- **C6.** When no row is full, `clear_lines` leaves the board, score and
every other field unchanged except for resetting `combo` to 0 — in
particular no obstacle or power-up spawn happens — and a second run (with
any time/randomness) gives the same result: it is idempotent on an
already-non-full board. -/
theorem clear_lines_noop_when_no_full_rows (g : Game) (now now' : Nat)
    (rng rng' : Rng) (h : fullRows g.board = []) :
    clearLines g now rng = { g with combo := 0 } ∧
      clearLines (clearLines g now rng) now' rng' = { g with combo := 0 } := by
  have h1 : clearLines g now rng = { g with combo := 0 } := by
    unfold clearLines
    rw [h]
    rfl
  refine ⟨h1, ?_⟩
  rw [h1]
  unfold clearLines
  have h2 : fullRows (Game.board { g with combo := 0 }) = [] := h
  rw [h2]
  rfl

/-- **C6** (witness). On the quiescent empty-board session, `clear_lines` is
the pure combo reset, twice over. -/
theorem clear_lines_noop_witness :
    clearLines baseGame 0 rngOff = { baseGame with combo := 0 } ∧
      clearLines (clearLines baseGame 0 rngOff) 7 rngOff = { baseGame with combo := 0 } :=
  clear_lines_noop_when_no_full_rows baseGame 0 7 rngOff rngOff (by decide)

/-! ## C10: the engine's hammer needs no armed state -/

/-- **C10.** For every session state and every `line < HEIGHT`, `use_hammer`
removes that row, inserts an empty row at the top, applies gravity, adds 50
points and sets `hammer_mode := false` — with no guard on `hammer_mode`
being armed beforehand (that guard lives only in the excluded input shell). -/
theorem use_hammer_unconditional (g : Game) (line : Nat) (h : line < HEIGHT) :
    useHammer g line
      = { g with board := applyGravity (emptyRow :: g.board.eraseIdx line),
                 hammer_mode := false,
                 score := g.score + 50 } := by
  unfold useHammer
  rw [if_pos h]

/-- **C10** (witness). Applied to the quiescent session, whose `hammer_mode`
is already `false`, on row 5. -/
theorem use_hammer_unconditional_witness :
    baseGame.hammer_mode = false ∧
      useHammer baseGame 5
        = { baseGame with board := applyGravity (emptyRow :: baseGame.board.eraseIdx 5),
                          hammer_mode := false,
                          score := baseGame.score + 50 } :=
  ⟨rfl, use_hammer_unconditional baseGame 5 (by decide)⟩

/-! ## C5: characterization of the placement check -/

/-- The board cell at (signed) coordinates `(ny, nx)` blocks placement:
it holds an obstacle or a locked (`Normal`) cell. -/
def blockedCellAt (g : Game) (ny nx : Int) : Prop :=
  cellN g.board ny.toNat nx.toNat = some CellType.Obstacle ∨
    ∃ c, cellN g.board ny.toNat nx.toNat = some (CellType.Normal c)

/-- The rejection condition of the claim, for one shape cell `(i, j)`. -/
def badCond (g : Game) (dx dy : Int) (i j : Nat) : Prop :=
  g.current_x + (j : Int) + dx < 0 ∨ (WIDTH : Int) ≤ g.current_x + (j : Int) + dx ∨
    (HEIGHT : Int) ≤ g.current_y + (i : Int) + dy ∨
    (0 ≤ g.current_y + (i : Int) + dy ∧ g.ghost_mode = false ∧
      blockedCellAt g (g.current_y + (i : Int) + dy) (g.current_x + (j : Int) + dx))

/-- Some occupied cell of the shape is rejected: lands outside `[0, W)`
horizontally or at `y ≥ H`, or on an on-board obstacle/filled cell while
ghost pass-through is off. -/
def badPlacement (g : Game) (dx dy : Int) : Prop :=
  ∃ i j, (g.current.shape.getD i []).getD j false = true ∧ badCond g dx dy i j

/-- A `true` entry of a shape matrix lies within the loop bounds of
`can_move`'s nested iteration. -/
theorem shape_true_bounds {shape : List (List Bool)} {i j : Nat}
    (h : (shape.getD i []).getD j false = true) :
    i < shape.length ∧ j < (shape.getD i []).length := by
  constructor
  · by_contra hi
    push_neg at hi
    rw [List.getD_eq_default _ _ hi] at h
    simp at h
  · by_contra hj
    push_neg at hj
    rw [List.getD_eq_default _ _ hj] at h
    exact absurd h (by simp)

/-- Per-cell characterization of `can_move`'s loop body. -/
theorem cellOk_eq_false_iff (g : Game) (dx dy : Int) (i j : Nat) :
    cellOk g dx dy i j = false ↔
      (g.current.shape.getD i []).getD j false = true ∧ badCond g dx dy i j := by
  unfold cellOk
  dsimp only
  by_cases hocc : (g.current.shape.getD i []).getD j false = true
  · rw [if_pos hocc]
    by_cases hb : g.current_x + (j : Int) + dx < 0 ∨
        (WIDTH : Int) ≤ g.current_x + (j : Int) + dx ∨
        (HEIGHT : Int) ≤ g.current_y + (i : Int) + dy
    · rw [if_pos hb]
      exact iff_of_true rfl ⟨hocc, hb.imp id (Or.imp id Or.inl)⟩
    · rw [if_neg hb]
      push_neg at hb
      by_cases hy : (0 : Int) ≤ g.current_y + (i : Int) + dy
      · rw [if_pos hy]
        rcases hc : cellN g.board (g.current_y + (i : Int) + dy).toNat
            (g.current_x + (j : Int) + dx).toNat with _ | ct
        · refine iff_of_false (by simp) ?_
          rintro ⟨-, (h1 | h2 | h3 | ⟨-, -, (h | ⟨c, h⟩)⟩)⟩
          · exact absurd h1 (not_lt.mpr hb.1)
          · exact absurd h2 (not_le.mpr hb.2.1)
          · exact absurd h3 (not_le.mpr hb.2.2)
          · rw [hc] at h
            exact Option.noConfusion h
          · rw [hc] at h
            exact Option.noConfusion h
        · cases ct with
          | Normal c =>
            show g.ghost_mode = false ↔ _
            constructor
            · intro hg
              exact ⟨hocc, Or.inr (Or.inr (Or.inr ⟨hy, hg, Or.inr ⟨c, hc⟩⟩))⟩
            · rintro ⟨-, (h1 | h2 | h3 | ⟨-, hg, -⟩)⟩
              · exact absurd h1 (not_lt.mpr hb.1)
              · exact absurd h2 (not_le.mpr hb.2.1)
              · exact absurd h3 (not_le.mpr hb.2.2)
              · exact hg
          | Obstacle =>
            show g.ghost_mode = false ↔ _
            constructor
            · intro hg
              exact ⟨hocc, Or.inr (Or.inr (Or.inr ⟨hy, hg, Or.inl hc⟩))⟩
            · rintro ⟨-, (h1 | h2 | h3 | ⟨-, hg, -⟩)⟩
              · exact absurd h1 (not_lt.mpr hb.1)
              · exact absurd h2 (not_le.mpr hb.2.1)
              · exact absurd h3 (not_le.mpr hb.2.2)
              · exact hg
          | PowerUp p =>
            refine iff_of_false (by simp) ?_
            rintro ⟨-, (h1 | h2 | h3 | ⟨-, -, (h | ⟨c, h⟩)⟩)⟩
            · exact absurd h1 (not_lt.mpr hb.1)
            · exact absurd h2 (not_le.mpr hb.2.1)
            · exact absurd h3 (not_le.mpr hb.2.2)
            · rw [hc] at h
              exact CellType.noConfusion (Option.some.inj h)
            · rw [hc] at h
              exact CellType.noConfusion (Option.some.inj h)
      · rw [if_neg hy]
        refine iff_of_false (by simp) ?_
        rintro ⟨-, (h1 | h2 | h3 | ⟨hy2, -, -⟩)⟩
        · exact absurd h1 (not_lt.mpr hb.1)
        · exact absurd h2 (not_le.mpr hb.2.1)
        · exact absurd h3 (not_le.mpr hb.2.2)
        · exact hy hy2
  · rw [if_neg hocc]
    exact iff_of_false (by simp) fun h => hocc h.1

/-- **C5.** `can_move` returns `false` iff some occupied cell of the shape
lands at a board `x` outside `[0, W)` or a board `y ≥ H`, or at an on-board
cell (`y ≥ 0`) holding an obstacle or a filled cell while ghost pass-through
is off — `PowerUp` and `Empty` cells never block; and on an empty board
every piece at its canonical spawn anchor `(3, 0)` is accepted. -/
theorem can_move_false_iff_bad_placement :
    (∀ (g : Game) (dx dy : Int), canMove g dx dy = false ↔ badPlacement g dx dy) ∧
      ∀ t : TetrominoType,
        canMove { baseGame with current := Tetromino.new t } 0 0 = true := by
  constructor
  · intro g dx dy
    constructor
    · intro hfalse
      unfold canMove at hfalse
      rw [List.all_eq_false] at hfalse
      obtain ⟨i, hi, hinner⟩ := hfalse
      rw [Bool.not_eq_true, List.all_eq_false] at hinner
      obtain ⟨j, hj, hcell⟩ := hinner
      rw [Bool.not_eq_true] at hcell
      obtain ⟨hocc, hbad⟩ := (cellOk_eq_false_iff g dx dy i j).mp hcell
      exact ⟨i, j, hocc, hbad⟩
    · rintro ⟨i, j, hocc, hbad⟩
      have hio := shape_true_bounds hocc
      have hcell : cellOk g dx dy i j = false :=
        (cellOk_eq_false_iff g dx dy i j).mpr ⟨hocc, hbad⟩
      cases hcm : canMove g dx dy with
      | false => rfl
      | true =>
        exfalso
        unfold canMove at hcm
        rw [List.all_eq_true] at hcm
        have h1 := hcm i (List.mem_range.mpr hio.1)
        rw [List.all_eq_true] at h1
        have h2 := h1 j (List.mem_range.mpr hio.2)
        rw [hcell] at h2
        exact Bool.false_ne_true h2
  · intro t
    cases t <;> rfl

/-! ## C7: gravity settles every board in `HEIGHT` passes

`apply_gravity` acts column-wise; `colPass` is the action of one pass on a
single column (top-to-bottom list of cells, processed bottom-up). -/

/-- One gravity pass restricted to a single column. -/
def colPass : List (Option CellType) → List (Option CellType)
  | [] => []
  | a :: rest =>
    match colPass rest with
    | [] => [a]
    | b :: rs => if a.isSome && b.isNone then none :: a :: rs else a :: b :: rs

/-- Column `x` of a board, as a top-to-bottom list. -/
def colAt (b : List (List (Option CellType))) (x : Nat) : List (Option CellType) :=
  b.map fun r => r.getD x none

theorem stepPair_fst_length (l1 l2 : List (Option CellType)) :
    (stepPair l1 l2).1.length = l1.length := by
  induction l1 generalizing l2 with
  | nil => cases l2 <;> rfl
  | cons a t1 ih =>
    cases l2 with
    | nil => rfl
    | cons b t2 =>
      rw [stepPair]
      split <;> simp [ih]

theorem stepPair_snd_length (l1 l2 : List (Option CellType)) :
    (stepPair l1 l2).2.length = l2.length := by
  induction l1 generalizing l2 with
  | nil => cases l2 <;> rfl
  | cons a t1 ih =>
    cases l2 with
    | nil => rfl
    | cons b t2 =>
      rw [stepPair]
      split <;> simp [ih]

theorem gravityPass_length (b : List (List (Option CellType))) :
    (gravityPass b).length = b.length := by
  induction b with
  | nil => rfl
  | cons r rest ih =>
    unfold gravityPass
    cases hg : gravityPass rest with
    | nil =>
      rw [hg] at ih
      cases rest with
      | nil => rfl
      | cons r2 rs => exact absurd ih.symm (by simp)
    | cons r2 rs =>
      rw [hg] at ih
      simpa using ih

theorem gravityPass_rows_length {W : Nat} (b : List (List (Option CellType)))
    (h : ∀ r ∈ b, r.length = W) : ∀ r ∈ gravityPass b, r.length = W := by
  induction b with
  | nil =>
    intro r hr
    simp [gravityPass] at hr
  | cons r rest ih =>
    have hr : r.length = W := h r (List.mem_cons_self r rest)
    have hrest : ∀ r' ∈ rest, r'.length = W := fun r' hr' => h r' (List.mem_cons_of_mem r hr')
    have ihrest := ih hrest
    unfold gravityPass
    cases hg : gravityPass rest with
    | nil =>
      intro r' hr'
      rw [List.mem_singleton] at hr'
      subst hr'
      exact hr
    | cons r2 rs =>
      rw [hg] at ihrest
      intro r' hr'
      rcases List.mem_cons.mp hr' with h1 | hr'
      · subst h1
        rw [stepPair_fst_length]
        exact hr
      · rcases List.mem_cons.mp hr' with h2 | hr'
        · subst h2
          rw [stepPair_snd_length]
          exact ihrest r2 (List.mem_cons_self r2 rs)
        · exact ihrest r' (List.mem_cons_of_mem r2 hr')

/-- Pointwise description of `stepPair` on equal-length rows. -/
theorem stepPair_getD (l1 l2 : List (Option CellType)) (hl : l1.length = l2.length)
    (x : Nat) :
    (stepPair l1 l2).1.getD x none
        = (if (l1.getD x none).isSome && (l2.getD x none).isNone then none
           else l1.getD x none) ∧
      (stepPair l1 l2).2.getD x none
        = (if (l1.getD x none).isSome && (l2.getD x none).isNone then l1.getD x none
           else l2.getD x none) := by
  induction l1 generalizing l2 x with
  | nil =>
    cases l2 with
    | nil => simp [stepPair]
    | cons b t2 => exact absurd hl (by simp)
  | cons a t1 ih =>
    cases l2 with
    | nil => exact absurd hl (by simp)
    | cons b t2 =>
      have hl' : t1.length = t2.length := by simpa using hl
      rw [stepPair]
      cases x with
      | zero =>
        cases hcond : (a.isSome && b.isNone) with
        | true => simp [hcond]
        | false => simp [hcond]
      | succ x' =>
        cases hcond : (a.isSome && b.isNone) with
        | true => simpa [hcond] using ih t2 hl' x'
        | false => simpa [hcond] using ih t2 hl' x'

/-- `gravityPass` acts on each column as `colPass`. -/
theorem colAt_gravityPass {W : Nat} (b : List (List (Option CellType)))
    (h : ∀ r ∈ b, r.length = W) (x : Nat) :
    colAt (gravityPass b) x = colPass (colAt b x) := by
  induction b with
  | nil => rfl
  | cons r rest ih =>
    have hr : r.length = W := h r (List.mem_cons_self r rest)
    have hrest : ∀ r' ∈ rest, r'.length = W := fun r' hr' => h r' (List.mem_cons_of_mem r hr')
    have ihrest := ih hrest
    unfold gravityPass
    cases hg : gravityPass rest with
    | nil =>
      have : rest = [] := by
        have := gravityPass_length rest
        rw [hg] at this
        exact List.length_eq_zero.mp this.symm
      subst this
      rfl
    | cons r2 rs =>
      have hr2 : r2.length = W := by
        have := gravityPass_rows_length rest hrest
        rw [hg] at this
        exact this r2 (List.mem_cons_self r2 rs)
      have hsp := stepPair_getD r r2 (hr.trans hr2.symm) x
      rw [hg] at ihrest
      show ((stepPair r r2).1.getD x none) :: ((stepPair r r2).2.getD x none) :: colAt rs x
          = colPass (r.getD x none :: colAt rest x)
      unfold colPass
      rw [← ihrest]
      show _ = match r2.getD x none :: colAt rs x with
        | [] => [r.getD x none]
        | b :: rs' => if (r.getD x none).isSome && b.isNone
            then none :: r.getD x none :: rs'
            else r.getD x none :: b :: rs'
      dsimp only
      cases hcond : ((r.getD x none).isSome && (r2.getD x none).isNone) with
      | true =>
        rw [hcond] at hsp
        rw [hsp.1, hsp.2]
        simp
      | false =>
        rw [hcond] at hsp
        rw [hsp.1, hsp.2]
        simp

/-- A `none` head passes through `colPass`. -/
theorem colPass_cons_none (t : List (Option CellType)) :
    colPass (none :: t) = none :: colPass t := by
  rw [colPass]
  cases h : colPass t with
  | nil => rfl
  | cons b rs => simp

/-- A `none` prefix passes through `colPass`. -/
theorem colPass_replicate_none_append (k : Nat) (t : List (Option CellType)) :
    colPass (List.replicate k none ++ t) = List.replicate k none ++ colPass t := by
  induction k with
  | zero => rfl
  | succ k ih =>
    rw [List.replicate_succ, List.cons_append, colPass_cons_none, ih]
    rfl

/-- `colPass` permutes the column (no cell content is lost or duplicated). -/
theorem colPass_perm (c : List (Option CellType)) : (colPass c).Perm c := by
  induction c with
  | nil => exact List.Perm.refl []
  | cons a rest ih =>
    rw [colPass]
    cases hg : colPass rest with
    | nil =>
      have hlen := ih.length_eq
      rw [hg] at hlen
      have : rest = [] := List.length_eq_zero.mp hlen.symm
      subst this
      exact List.Perm.refl [a]
    | cons b rs =>
      rw [hg] at ih
      dsimp only
      cases hcond : (a.isSome && b.isNone) with
      | true =>
        rw [if_pos rfl]
        have hb : b = none := by
          rw [Bool.and_eq_true] at hcond
          exact Option.isNone_iff_eq_none.mp hcond.2
        exact (List.Perm.swap a none rs).trans (List.Perm.cons a (hb ▸ ih))
      | false =>
        rw [if_neg Bool.false_ne_true]
        exact List.Perm.cons a ih

/-- If the column contains a hole, one pass brings a hole to the top. -/
theorem colPass_head_none (c : List (Option CellType)) (h : none ∈ c) :
    ∃ t, colPass c = none :: t := by
  induction c with
  | nil => simp at h
  | cons a rest ih =>
    rcases eq_or_ne a none with ha | ha
    · subst ha
      exact ⟨colPass rest, colPass_cons_none rest⟩
    · have hrest : none ∈ rest := by
        rcases List.mem_cons.mp h with h1 | h2
        · exact absurd h1.symm ha
        · exact h2
      obtain ⟨t, ht⟩ := ih hrest
      refine ⟨a :: t, ?_⟩
      rw [colPass, ht]
      have hsome : a.isSome = true := Option.ne_none_iff_isSome.mp ha
      simp [hsome]

theorem colPass_iterate_perm (p : Nat) (c : List (Option CellType)) :
    (colPass^[p] c).Perm c := by
  induction p with
  | zero => exact List.Perm.refl c
  | succ p ih =>
    rw [Function.iterate_succ_apply']
    exact (colPass_perm _).trans ih

/-- Number of holes (`none` cells) in a column. -/
def holeCount (c : List (Option CellType)) : Nat := c.countP fun a => a.isNone

theorem holeCount_replicate (k : Nat) : holeCount (List.replicate k none) = k := by
  induction k with
  | zero => rfl
  | succ k ih =>
    rw [List.replicate_succ]
    unfold holeCount at ih ⊢
    rw [List.countP_cons]
    simp [ih]

theorem holeCount_append (l1 l2 : List (Option CellType)) :
    holeCount (l1 ++ l2) = holeCount l1 + holeCount l2 :=
  List.countP_append _ _ _

theorem holeCount_pos_iff (t : List (Option CellType)) :
    0 < holeCount t ↔ none ∈ t := by
  unfold holeCount
  rw [List.countP_pos_iff]
  constructor
  · rintro ⟨a, ha, hp⟩
    rwa [Option.isNone_iff_eq_none.mp hp] at ha
  · intro h
    exact ⟨none, h, rfl⟩

/-- After `p` passes, the first `min p (number of holes)` cells of the
column are holes. -/
theorem colPass_iterate_prefix (p : Nat) (c : List (Option CellType)) :
    ∃ t, colPass^[p] c = List.replicate (min p (holeCount c)) none ++ t := by
  induction p with
  | zero => exact ⟨c, by simp⟩
  | succ p ih =>
    obtain ⟨t, ht⟩ := ih
    rcases le_or_lt (holeCount c) p with hp | hp
    · have h1 : min p (holeCount c) = holeCount c := min_eq_right hp
      have h2 : min (p + 1) (holeCount c) = holeCount c :=
        min_eq_right (hp.trans (Nat.le_succ p))
      refine ⟨colPass t, ?_⟩
      rw [Function.iterate_succ_apply', ht, colPass_replicate_none_append, h1, h2]
    · have h1 : min p (holeCount c) = p := min_eq_left hp.le
      have hcnt : holeCount (List.replicate (min p (holeCount c)) none ++ t)
          = holeCount c := by
        rw [← ht]
        exact (colPass_iterate_perm p c).countP_eq _
      rw [h1] at hcnt ht
      rw [holeCount_append, holeCount_replicate] at hcnt
      have hmem : none ∈ t := by
        rw [← holeCount_pos_iff]
        omega
      obtain ⟨t', ht'⟩ := colPass_head_none t hmem
      refine ⟨t', ?_⟩
      rw [Function.iterate_succ_apply', ht, colPass_replicate_none_append, ht']
      have h2 : min (p + 1) (holeCount c) = p + 1 := min_eq_left hp
      rw [h2, List.replicate_succ']
      simp

/-- A column that is holes-then-content has no content cell with a hole
directly below it. -/
theorem settled_of_prefix (k : Nat) (t : List (Option CellType))
    (htall : ∀ a ∈ t, a ≠ none) (i : Nat)
    (hi : i + 1 < (List.replicate k none ++ t).length)
    (hs : ((List.replicate k none ++ t).getD i none).isSome = true) :
    ((List.replicate k none ++ t).getD (i + 1) none).isSome = true := by
  rcases lt_or_le i k with hik | hik
  · exfalso
    have hnone : (List.replicate k none ++ t).getD i none = none := by
      rw [List.getD_append _ _ _ _ (by simpa using hik),
        List.getD_eq_getElem _ _ (by simpa using hik)]
      exact List.getElem_replicate _ _
    rw [hnone] at hs
    simp at hs
  · have hlen : (List.replicate k none ++ t).length = k + t.length := by simp
    have hi1 : i + 1 - k < t.length := by
      rw [hlen] at hi
      omega
    have hgd : (List.replicate k none ++ t).getD (i + 1) none
        = t.getD (i + 1 - k) none := by
      rw [List.getD_append_right _ _ _ _ (by simpa using hik.trans (Nat.le_succ i))]
      simp
    rw [hgd, List.getD_eq_getElem _ _ hi1]
    exact Option.ne_none_iff_isSome.mp (htall _ (List.getElem_mem hi1))

theorem gravityPass_iterate_length (n : Nat) (b : List (List (Option CellType))) :
    (gravityPass^[n] b).length = b.length := by
  induction n with
  | zero => rfl
  | succ n ih => rw [Function.iterate_succ_apply', gravityPass_length, ih]

theorem gravityPass_iterate_rows_length {W : Nat} (n : Nat)
    (b : List (List (Option CellType))) (h : ∀ r ∈ b, r.length = W) :
    ∀ r ∈ gravityPass^[n] b, r.length = W := by
  induction n with
  | zero => exact h
  | succ n ih =>
    rw [Function.iterate_succ_apply']
    exact gravityPass_rows_length _ ih

theorem colAt_iterate {W : Nat} (n : Nat) (b : List (List (Option CellType)))
    (h : ∀ r ∈ b, r.length = W) (x : Nat) :
    colAt (gravityPass^[n] b) x = colPass^[n] (colAt b x) := by
  induction n with
  | zero => rfl
  | succ n ih =>
    rw [Function.iterate_succ_apply', Function.iterate_succ_apply',
      colAt_gravityPass (gravityPass^[n] b) (gravityPass_iterate_rows_length n b h) x, ih]

theorem colAt_length (b : List (List (Option CellType))) (x : Nat) :
    (colAt b x).length = b.length := List.length_map _ _

theorem colAt_getD (b : List (List (Option CellType))) (x y : Nat)
    (hy : y < b.length) : (colAt b x).getD y none = cellN b y x := by
  unfold colAt cellN
  rw [List.getD_eq_getElem _ _ (by simpa using hy), List.getElem_map,
    List.getD_eq_getElem _ _ hy]

/-- **C7.** After `apply_gravity` (the fixed `HEIGHT`-iteration bubble pass),
the board is fully gravity-consistent: in every column, a non-empty cell
never sits directly above an empty cell — for every input board of the
engine's dimensions. -/
theorem apply_gravity_settles (b : List (List (Option CellType)))
    (hW : ∀ r ∈ b, r.length = WIDTH) (hH : b.length = HEIGHT) (x y : Nat)
    (hy : y + 1 < HEIGHT)
    (hs : (cellN (applyGravity b) y x).isSome = true) :
    (cellN (applyGravity b) (y + 1) x).isSome = true := by
  have hlen : (applyGravity b).length = HEIGHT := by
    unfold applyGravity
    rw [gravityPass_iterate_length, hH]
  have hcols : colAt (applyGravity b) x = colPass^[HEIGHT] (colAt b x) :=
    colAt_iterate HEIGHT b hW x
  have hclen : (colAt b x).length = HEIGHT := by rw [colAt_length, hH]
  have hcnt_le : holeCount (colAt b x) ≤ HEIGHT :=
    le_trans (List.countP_le_length _) (le_of_eq hclen)
  obtain ⟨t, ht⟩ := colPass_iterate_prefix HEIGHT (colAt b x)
  rw [min_eq_right hcnt_le] at ht
  have hcc : holeCount (colPass^[HEIGHT] (colAt b x)) = holeCount (colAt b x) :=
    (colPass_iterate_perm _ _).countP_eq _
  rw [ht, holeCount_append, holeCount_replicate] at hcc
  have htall : ∀ a ∈ t, a ≠ none := by
    intro a ha heq
    have h0 : none ∈ t := heq ▸ ha
    have := (holeCount_pos_iff t).mpr h0
    omega
  have hyb : y < (applyGravity b).length := by
    rw [hlen]
    omega
  have hy1b : y + 1 < (applyGravity b).length := by
    rw [hlen]
    exact hy
  have hs' : ((List.replicate (holeCount (colAt b x)) none ++ t).getD y none).isSome
      = true := by
    rw [← ht, ← hcols, colAt_getD _ _ _ hyb]
    exact hs
  have hilen : y + 1 < (List.replicate (holeCount (colAt b x)) none ++ t).length := by
    have hl2 : (colPass^[HEIGHT] (colAt b x)).length = HEIGHT :=
      (colPass_iterate_perm _ _).length_eq.trans hclen
    rw [ht] at hl2
    rw [hl2]
    exact hy
  have hres := settled_of_prefix (holeCount (colAt b x)) t htall y hilen hs'
  rw [← ht, ← hcols, colAt_getD _ _ _ hy1b] at hres
  exact hres

/-! ## Per-stage facts about the lock sequence (used by C3 below) -/

/-- Is this cell a power-up cell? -/
def isPowerUpCell (c : Option CellType) : Bool :=
  match c with
  | some (CellType.PowerUp _) => true
  | _ => false

theorem collectPowerUps_of_nil (g : Game) (now : Nat) (rng : Rng)
    (h : collectList g = []) : collectPowerUps g now rng = g := by
  unfold collectPowerUps
  rw [h]
  rfl

theorem spawnObstacle_ghost_mode (g : Game) (rng : Rng) :
    (spawnObstacle g rng).ghost_mode = g.ghost_mode := by
  unfold spawnObstacle
  dsimp only
  split <;> rfl

theorem spawnObstacle_ghost_remaining (g : Game) (rng : Rng) :
    (spawnObstacle g rng).ghost_remaining = g.ghost_remaining := by
  unfold spawnObstacle
  dsimp only
  split <;> rfl

theorem spawnPowerUp_ghost_mode (g : Game) (rng : Rng) :
    (spawnPowerUp g rng).ghost_mode = g.ghost_mode := by
  unfold spawnPowerUp
  dsimp only
  split <;> rfl

theorem spawnPowerUp_ghost_remaining (g : Game) (rng : Rng) :
    (spawnPowerUp g rng).ghost_remaining = g.ghost_remaining := by
  unfold spawnPowerUp
  dsimp only
  split <;> rfl

theorem clearLines_ghost_mode (g : Game) (now : Nat) (rng : Rng) :
    (clearLines g now rng).ghost_mode = g.ghost_mode := by
  unfold clearLines
  dsimp only
  split
  · rfl
  · split
    · split
      · rw [spawnPowerUp_ghost_mode, spawnObstacle_ghost_mode]
      · rw [spawnPowerUp_ghost_mode]
    · split
      · rw [spawnObstacle_ghost_mode]
      · rfl

theorem clearLines_ghost_remaining (g : Game) (now : Nat) (rng : Rng) :
    (clearLines g now rng).ghost_remaining = g.ghost_remaining := by
  unfold clearLines
  dsimp only
  split
  · rfl
  · split
    · split
      · rw [spawnPowerUp_ghost_remaining, spawnObstacle_ghost_remaining]
      · rw [spawnPowerUp_ghost_remaining]
    · split
      · rw [spawnObstacle_ghost_remaining]
      · rfl

theorem spawnNewPiece_ghost_mode (g : Game) (tp : TetrominoType) :
    (spawnNewPiece g tp).ghost_mode = g.ghost_mode := by
  unfold spawnNewPiece
  dsimp only
  split <;> rfl

theorem spawnNewPiece_ghost_remaining (g : Game) (tp : TetrominoType) :
    (spawnNewPiece g tp).ghost_remaining = g.ghost_remaining := by
  unfold spawnNewPiece
  dsimp only
  split <;> rfl

theorem spawnNewPiece_board (g : Game) (tp : TetrominoType) :
    (spawnNewPiece g tp).board = g.board := by
  unfold spawnNewPiece
  dsimp only
  split <;> rfl

/-- The mutating piece commands that can occur between two locks. -/
inductive Cmd where
  | move : Int → Int → Cmd
  | rotateCw : Cmd

/-- Dispatch one command. -/
def applyCmd (g : Game) : Cmd → Game
  | Cmd.move dx dy => movePiece g dx dy
  | Cmd.rotateCw => rotatePiece g

/-- Run a sequence of move/rotate commands. -/
def applyCmds (g : Game) (cs : List Cmd) : Game := cs.foldl applyCmd g

theorem applyCmd_board_ghost (g : Game) (c : Cmd) :
    (applyCmd g c).board = g.board ∧ (applyCmd g c).ghost_mode = g.ghost_mode ∧
      (applyCmd g c).ghost_remaining = g.ghost_remaining := by
  cases c with
  | move dx dy =>
    rw [show applyCmd g (Cmd.move dx dy) = movePiece g dx dy from rfl]
    unfold movePiece
    by_cases h : canMove g dx dy = true
    · rw [if_pos h]
      exact ⟨rfl, rfl, rfl⟩
    · rw [if_neg h]
      exact ⟨rfl, rfl, rfl⟩
  | rotateCw =>
    rw [show applyCmd g Cmd.rotateCw = rotatePiece g from rfl]
    unfold rotatePiece
    dsimp only
    by_cases h : canMove { g with current := g.current.rotate } 0 0 = true
    · rw [if_pos h]
      exact ⟨rfl, rfl, rfl⟩
    · rw [if_neg h]
      exact ⟨rfl, rfl, rfl⟩

theorem applyCmds_board_ghost (cs : List Cmd) (g : Game) :
    (applyCmds g cs).board = g.board ∧ (applyCmds g cs).ghost_mode = g.ghost_mode ∧
      (applyCmds g cs).ghost_remaining = g.ghost_remaining := by
  induction cs generalizing g with
  | nil => exact ⟨rfl, rfl, rfl⟩
  | cons c rest ih =>
    unfold applyCmds at ih ⊢
    rw [List.foldl_cons]
    obtain ⟨h1, h2, h3⟩ := ih (applyCmd g c)
    obtain ⟨k1, k2, k3⟩ := applyCmd_board_ghost g c
    exact ⟨h1.trans k1, h2.trans k2, h3.trans k3⟩

/-- **C7** (witness). On the board with two full bottom rows, gravity is
settled at column 0, rows 18/19. -/
theorem apply_gravity_settles_witness :
    (∀ r ∈ twoFullGame.board, r.length = WIDTH) ∧
      twoFullGame.board.length = HEIGHT ∧ 18 + 1 < HEIGHT ∧
      (cellN (applyGravity twoFullGame.board) 18 0).isSome = true ∧
      (cellN (applyGravity twoFullGame.board) (18 + 1) 0).isSome = true :=
  ⟨by decide, by decide, by decide, by decide,
   apply_gravity_settles twoFullGame.board (by decide) (by decide) 0 18
     (by decide) (by decide)⟩

/-- A session in freshly activated ghost mode on an empty board. -/
def ghostG : Game := { baseGame with ghost_mode := true, ghost_remaining := 3 }

/-- State after the first lock following ghost activation. -/
def ghostG1 : Game :=
  lockPiece (applyCmds ghostG [Cmd.move 1 0]) 0 rngOff TetrominoType.O

/-- State after the second lock. -/
def ghostG2 : Game := lockPiece (applyCmds ghostG1 []) 1 rngOff TetrominoType.T

/-- State after the third lock. -/
def ghostG3 : Game :=
  lockPiece (applyCmds ghostG2 [Cmd.rotateCw]) 2 rngOff TetrominoType.S

/-! ## C8: the bomb clears exactly the filled cells of its 5×5 window -/

/-- Is this cell a locked (`Normal`) cell? -/
def isNormalCell (c : Option CellType) : Bool :=
  match c with
  | some (CellType.Normal _) => true
  | _ => false

/-- Does blast offset `d` hit an in-bounds `Normal` cell of board `b`? -/
def bombHits (b : List (List (Option CellType))) (cx cy : Int) (d : Int × Int) : Bool :=
  decide (usizeCast (cx + d.1) < WIDTH) && decide (usizeCast (cy + d.2) < HEIGHT) &&
    isNormalCell (cellN b (usizeCast (cy + d.2)) (usizeCast (cx + d.1)))

theorem getD_set_eq {α : Type} (l : List α) (i : Nat) (a d : α) (h : i < l.length) :
    (l.set i a).getD i d = a := by
  rw [List.getD_eq_getElem _ _ (by rwa [List.length_set])]
  exact List.getElem_set_self _

theorem getD_set_ne {α : Type} (l : List α) (i j : Nat) (a d : α) (h : i ≠ j) :
    (l.set i a).getD j d = l.getD j d := by
  rcases lt_or_le j l.length with hj | hj
  · rw [List.getD_eq_getElem _ _ (by rwa [List.length_set]),
      List.getD_eq_getElem _ _ hj]
    exact List.getElem_set_ne h _
  · rw [List.getD_eq_default _ _ (by rwa [List.length_set]),
      List.getD_eq_default _ _ hj]

theorem cellN_setCell (b : List (List (Option CellType))) (y x : Nat)
    (v : Option CellType) (hy : y < b.length) (hx : x < (b.getD y []).length)
    (yy xx : Nat) :
    cellN (setCell b y x v) yy xx = if yy = y ∧ xx = x then v else cellN b yy xx := by
  unfold cellN setCell
  by_cases hyy : yy = y
  · subst hyy
    rw [getD_set_eq b yy _ [] hy]
    by_cases hxx : xx = x
    · subst hxx
      rw [getD_set_eq _ _ _ _ hx]
      simp
    · rw [getD_set_ne _ _ _ _ _ fun hh => hxx hh.symm]
      simp [hxx]
  · rw [getD_set_ne b y yy _ [] fun hh => hyy hh.symm]
    simp [hyy]

theorem setCell_length (b : List (List (Option CellType))) (y x : Nat)
    (v : Option CellType) : (setCell b y x v).length = b.length :=
  List.length_set b y _

theorem setCell_rows (b : List (List (Option CellType))) (y x : Nat)
    (v : Option CellType) (hW : ∀ r ∈ b, r.length = WIDTH) (hy : y < b.length) :
    ∀ r ∈ setCell b y x v, r.length = WIDTH := by
  intro r hr
  rcases List.mem_or_eq_of_mem_set hr with hr' | hr'
  · exact hW r hr'
  · subst hr'
    rw [List.length_set]
    refine hW _ ?_
    rw [List.getD_eq_getElem _ _ hy]
    exact List.getElem_mem hy

/-- A blast step that hits clears the cell and scores 10. -/
theorem bombClearStep_hit (cx cy : Int) (g : Game) (d : Int × Int)
    (h : bombHits g.board cx cy d = true) :
    bombClearStep cx cy g d
      = { g with board := setCell g.board (usizeCast (cy + d.2))
                   (usizeCast (cx + d.1)) none,
                 score := g.score + 10 } := by
  unfold bombHits at h
  rw [Bool.and_eq_true, Bool.and_eq_true] at h
  obtain ⟨⟨hx, hy⟩, hnorm⟩ := h
  rw [decide_eq_true_eq] at hx hy
  unfold bombClearStep
  dsimp only
  rw [if_pos ⟨hx, hy⟩]
  cases hc : cellN g.board (usizeCast (cy + d.2)) (usizeCast (cx + d.1)) with
  | none =>
    rw [hc] at hnorm
    exact absurd hnorm (by simp [isNormalCell])
  | some ct =>
    cases ct with
    | Normal c => rfl
    | Obstacle =>
      rw [hc] at hnorm
      exact absurd hnorm (by simp [isNormalCell])
    | PowerUp p =>
      rw [hc] at hnorm
      exact absurd hnorm (by simp [isNormalCell])

/-- A blast step that misses leaves the state unchanged. -/
theorem bombClearStep_miss (cx cy : Int) (g : Game) (d : Int × Int)
    (h : bombHits g.board cx cy d = false) :
    bombClearStep cx cy g d = g := by
  unfold bombClearStep
  dsimp only
  by_cases hb : usizeCast (cx + d.1) < WIDTH ∧ usizeCast (cy + d.2) < HEIGHT
  · rw [if_pos hb]
    cases hc : cellN g.board (usizeCast (cy + d.2)) (usizeCast (cx + d.1)) with
    | none => rfl
    | some ct =>
      cases ct with
      | Normal c =>
        exfalso
        unfold bombHits at h
        rw [hc] at h
        simp [isNormalCell, hb.1, hb.2] at h
      | Obstacle => rfl
      | PowerUp p => rfl
  · rw [if_neg hb]

/-- Full characterization of the blast loop over any list of offsets whose
target cells are pairwise distinct: the score grows by 10 per hit, hit cells
are cleared, and every other cell is untouched. -/
theorem blastFold_spec (L : List (Int × Int)) (cx cy : Int) (g : Game)
    (hW : ∀ r ∈ g.board, r.length = WIDTH) (hH : g.board.length = HEIGHT)
    (hnd : (L.map fun d => (usizeCast (cx + d.1), usizeCast (cy + d.2))).Nodup) :
    (L.foldl (bombClearStep cx cy) g).score
        = g.score + 10 * L.countP (bombHits g.board cx cy) ∧
      (∀ yy xx, cellN (L.foldl (bombClearStep cx cy) g).board yy xx
          = if ∃ d ∈ L, bombHits g.board cx cy d = true ∧
                usizeCast (cy + d.2) = yy ∧ usizeCast (cx + d.1) = xx
            then none else cellN g.board yy xx) ∧
      (∀ r ∈ (L.foldl (bombClearStep cx cy) g).board, r.length = WIDTH) ∧
      (L.foldl (bombClearStep cx cy) g).board.length = HEIGHT := by
  induction L generalizing g with
  | nil =>
    refine ⟨by simp, ?_, hW, hH⟩
    intro yy xx
    rw [if_neg]
    · rfl
    · rintro ⟨d, hd, -⟩
      simp at hd
  | cons d rest ih =>
    rw [List.foldl_cons]
    rw [List.map_cons, List.nodup_cons] at hnd
    obtain ⟨hdhead, hndrest⟩ := hnd
    cases hhit : bombHits g.board cx cy d with
    | false =>
      rw [bombClearStep_miss cx cy g d hhit]
      obtain ⟨ihS, ihB, ihW, ihH⟩ := ih g hW hH hndrest
      refine ⟨?_, ?_, ihW, ihH⟩
      · rw [ihS, List.countP_cons, hhit]
        simp
      · intro yy xx
        rw [ihB yy xx]
        by_cases hex : ∃ d' ∈ rest, bombHits g.board cx cy d' = true ∧
            usizeCast (cy + d'.2) = yy ∧ usizeCast (cx + d'.1) = xx
        · rw [if_pos hex, if_pos ?_]
          obtain ⟨d', h1, h2⟩ := hex
          exact ⟨d', List.mem_cons_of_mem d h1, h2⟩
        · rw [if_neg hex, if_neg ?_]
          rintro ⟨d', hd', hh, hy2, hx2⟩
          rcases List.mem_cons.mp hd' with heq | hmem
          · subst heq
            rw [hhit] at hh
            exact Bool.noConfusion hh
          · exact hex ⟨d', hmem, hh, hy2, hx2⟩
    | true =>
      have hstep := bombClearStep_hit cx cy g d hhit
      rw [hstep]
      have hb2 := hhit
      unfold bombHits at hb2
      rw [Bool.and_eq_true, Bool.and_eq_true] at hb2
      have hxlt : usizeCast (cx + d.1) < WIDTH := of_decide_eq_true hb2.1.1
      have hylt : usizeCast (cy + d.2) < HEIGHT := of_decide_eq_true hb2.1.2
      have hylen : usizeCast (cy + d.2) < g.board.length := by
        rw [hH]
        exact hylt
      have hxrow : usizeCast (cx + d.1)
          < (g.board.getD (usizeCast (cy + d.2)) []).length := by
        rw [hW _ (by rw [List.getD_eq_getElem _ _ hylen]; exact List.getElem_mem hylen)]
        exact hxlt
      have hcell1 : ∀ yy xx,
          cellN (setCell g.board (usizeCast (cy + d.2)) (usizeCast (cx + d.1)) none)
              yy xx
            = if yy = usizeCast (cy + d.2) ∧ xx = usizeCast (cx + d.1) then none
              else cellN g.board yy xx :=
        fun yy xx => cellN_setCell g.board _ _ none hylen hxrow yy xx
      have hcong : ∀ d' ∈ rest,
          bombHits (setCell g.board (usizeCast (cy + d.2))
              (usizeCast (cx + d.1)) none) cx cy d'
            = bombHits g.board cx cy d' := by
        intro d' hd'
        have hne : ((usizeCast (cx + d'.1), usizeCast (cy + d'.2)) :
              Nat × Nat) ≠ (usizeCast (cx + d.1), usizeCast (cy + d.2)) := by
          intro he
          refine hdhead ?_
          rw [← he]
          exact List.mem_map_of_mem _ hd'
        unfold bombHits
        rw [hcell1 (usizeCast (cy + d'.2)) (usizeCast (cx + d'.1)), if_neg ?_]
        rintro ⟨h1, h2⟩
        exact hne (by rw [h1, h2])
      have hW1 : ∀ r ∈ (setCell g.board (usizeCast (cy + d.2))
          (usizeCast (cx + d.1)) none), r.length = WIDTH :=
        setCell_rows _ _ _ _ hW hylen
      have hH1 : (setCell g.board (usizeCast (cy + d.2))
          (usizeCast (cx + d.1)) none).length = HEIGHT := by
        rw [setCell_length, hH]
      obtain ⟨ihS, ihB, ihW, ihH⟩ :=
        ih { g with board := setCell g.board (usizeCast (cy + d.2))
                      (usizeCast (cx + d.1)) none,
                    score := g.score + 10 } hW1 hH1 hndrest
      refine ⟨?_, ?_, ihW, ihH⟩
      · rw [ihS]
        dsimp only
        rw [List.countP_congr fun x hx => by rw [hcong x hx]]
        rw [List.countP_cons, hhit]
        simp
        omega
      · intro yy xx
        rw [ihB yy xx]
        dsimp only
        by_cases hpos : usizeCast (cy + d.2) = yy ∧ usizeCast (cx + d.1) = xx
        · rw [if_pos (show ∃ d'' ∈ d :: rest, bombHits g.board cx cy d'' = true ∧
              usizeCast (cy + d''.2) = yy ∧ usizeCast (cx + d''.1) = xx from
              ⟨d, List.mem_cons_self d rest, hhit, hpos.1, hpos.2⟩)]
          by_cases hex : ∃ d' ∈ rest,
              bombHits (setCell g.board (usizeCast (cy + d.2))
                  (usizeCast (cx + d.1)) none) cx cy d' = true ∧
                usizeCast (cy + d'.2) = yy ∧ usizeCast (cx + d'.1) = xx
          · rw [if_pos hex]
          · rw [if_neg hex, hcell1 yy xx, if_pos ⟨hpos.1.symm, hpos.2.symm⟩]
        · have hiff : (∃ d' ∈ rest,
              bombHits (setCell g.board (usizeCast (cy + d.2))
                  (usizeCast (cx + d.1)) none) cx cy d' = true ∧
                usizeCast (cy + d'.2) = yy ∧ usizeCast (cx + d'.1) = xx) ↔
              (∃ d'' ∈ d :: rest, bombHits g.board cx cy d'' = true ∧
                usizeCast (cy + d''.2) = yy ∧ usizeCast (cx + d''.1) = xx) := by
            constructor
            · rintro ⟨d', hmem, hh, hy2, hx2⟩
              rw [hcong d' hmem] at hh
              exact ⟨d', List.mem_cons_of_mem d hmem, hh, hy2, hx2⟩
            · rintro ⟨d'', hmem, hh, hy2, hx2⟩
              rcases List.mem_cons.mp hmem with heq | hmem'
              · subst heq
                exact absurd ⟨hy2, hx2⟩ hpos
              · rw [← hcong d'' hmem'] at hh
                exact ⟨d'', hmem', hh, hy2, hx2⟩
          by_cases hex2 : ∃ d'' ∈ d :: rest, bombHits g.board cx cy d'' = true ∧
              usizeCast (cy + d''.2) = yy ∧ usizeCast (cx + d''.1) = xx
          · rw [if_pos hex2, if_pos (hiff.mpr hex2)]
          · rw [if_neg hex2, if_neg (fun hc => hex2 (hiff.mp hc)), hcell1 yy xx,
              if_neg ?_]
            rintro ⟨h1, h2⟩
            exact hpos ⟨h1.symm, h2.symm⟩

theorem usizeCast_inj_small (c d1 d2 : Int) (h1 : -2 ≤ d1 ∧ d1 ≤ 2)
    (h2 : -2 ≤ d2 ∧ d2 ≤ 2) (h : usizeCast (c + d1) = usizeCast (c + d2)) :
    d1 = d2 := by
  unfold usizeCast at h
  have hM : (2 ^ 64 : Int) = 18446744073709551616 := by norm_num
  rw [hM] at h
  omega

/-- The 25 blast offsets target pairwise distinct board cells. -/
theorem bombWindow_nodup_cast (cx cy : Int) :
    (bombWindow.map fun d =>
      (usizeCast (cx + d.1), usizeCast (cy + d.2))).Nodup := by
  have hmem : ∀ d ∈ bombWindow, (-2 ≤ d.1 ∧ d.1 ≤ 2) ∧ (-2 ≤ d.2 ∧ d.2 ≤ 2) := by
    decide
  refine List.Nodup.map_on ?_ (by decide)
  intro x hx y hy hf
  have hfx := congrArg Prod.fst hf
  have hfy := congrArg Prod.snd hf
  dsimp only at hfx hfy
  have e1 : x.1 = y.1 :=
    usizeCast_inj_small cx x.1 y.1 (hmem x hx).1 (hmem y hy).1 hfx
  have e2 : x.2 = y.2 :=
    usizeCast_inj_small cy x.2 y.2 (hmem x hx).2 (hmem y hy).2 hfy
  exact Prod.ext e1 e2

/-- **C8.** When the 5×5 blast window around the integer-averaged centroid of
the locking piece contains no obstacle and no power-up cell, bomb activation
adds exactly `10 * k` points where `k` is the number of in-bounds `Filled`
(`Normal`) cells in the window, clears exactly those cells (every in-bounds
window cell is empty afterwards), and leaves every cell outside the window —
in particular every obstacle and power-up cell — unchanged. -/
theorem bomb_blast_spec (g : Game)
    (hW : ∀ r ∈ g.board, r.length = WIDTH) (hH : g.board.length = HEIGHT)
    (hocc : 0 < (occupiedCells g.current.shape).length)
    (hwin : ∀ d ∈ bombWindow,
        cellN g.board (usizeCast (bombCy g + d.2)) (usizeCast (bombCx g + d.1))
            ≠ some CellType.Obstacle ∧
          isPowerUpCell (cellN g.board (usizeCast (bombCy g + d.2))
            (usizeCast (bombCx g + d.1))) = false) :
    (bombBlast g).score
        = g.score + 10 * bombWindow.countP (bombHits g.board (bombCx g) (bombCy g)) ∧
      (∀ d ∈ bombWindow, usizeCast (bombCx g + d.1) < WIDTH →
        usizeCast (bombCy g + d.2) < HEIGHT →
        cellN (bombBlast g).board (usizeCast (bombCy g + d.2))
          (usizeCast (bombCx g + d.1)) = none) ∧
      (∀ yy xx, (∀ d ∈ bombWindow, ¬(usizeCast (bombCy g + d.2) = yy ∧
          usizeCast (bombCx g + d.1) = xx)) →
        cellN (bombBlast g).board yy xx = cellN g.board yy xx) := by
  unfold bombBlast
  rw [if_pos hocc]
  obtain ⟨hS, hB, -, -⟩ := blastFold_spec bombWindow (bombCx g) (bombCy g) g hW hH
    (bombWindow_nodup_cast _ _)
  refine ⟨hS, ?_, ?_⟩
  · intro d hd hx hy
    rw [hB (usizeCast (bombCy g + d.2)) (usizeCast (bombCx g + d.1))]
    split
    · rfl
    · rename_i hnex
      rcases hc : cellN g.board (usizeCast (bombCy g + d.2))
          (usizeCast (bombCx g + d.1)) with _ | ct
      · rfl
      · exfalso
        cases ct with
        | Normal c =>
          refine hnex ⟨d, hd, ?_, rfl, rfl⟩
          unfold bombHits
          rw [hc]
          simp [isNormalCell, hx, hy]
        | Obstacle => exact (hwin d hd).1 hc
        | PowerUp p =>
          have := (hwin d hd).2
          rw [hc] at this
          exact absurd this (by simp [isPowerUpCell])
  · intro yy xx hout
    rw [hB yy xx, if_neg ?_]
    rintro ⟨d', hd', -, hy2, hx2⟩
    exact hout d' hd' ⟨hy2, hx2⟩

/-- A session about to detonate a bomb: an `O` piece at anchor `(3, 4)`
(centroid `(3, 4)`), with two `Normal` cells inside the 5×5 window. -/
def bombG : Game :=
  { baseGame with
    board := setCell (setCell emptyBoard 2 1 (some (CellType.Normal GColor.red)))
      6 5 (some (CellType.Normal GColor.blue)),
    current := Tetromino.new TetrominoType.O, current_x := 3, current_y := 4 }

/-- **C8** (witness). The concrete bomb adds `10 * k` points for its window's
`k` filled cells. -/
theorem bomb_blast_spec_witness :
    (bombBlast bombG).score
      = bombG.score
          + 10 * bombWindow.countP (bombHits bombG.board (bombCx bombG) (bombCy bombG)) :=
  (bomb_blast_spec bombG (by decide) (by decide) (by decide) (by decide)).1

/-! ## C3: ghost mode lasts exactly three locks

The key structural fact is that `lock_piece` stamps every occupied cell to
`Normal` *before* `collect_power_ups` scans those very cells, so the collect
scan of a lock never finds a power-up: no collection — and hence no ghost
reset — can interfere with the per-lock decrement, for any board and any
randomness. -/

theorem setCell_row_length (b : List (List (Option CellType))) (y' x' : Nat)
    (v : Option CellType) (y : Nat) :
    ((setCell b y' x' v).getD y []).length = (b.getD y []).length := by
  unfold setCell
  by_cases hy : y = y'
  · subst hy
    rcases lt_or_le y b.length with hlt | hle
    · rw [getD_set_eq b y _ [] hlt, List.length_set]
    · rw [List.getD_eq_default _ _ (by rw [List.length_set]; exact hle),
        List.getD_eq_default _ _ hle]
  · rw [getD_set_ne b y' y _ [] fun hh => hy hh.symm]

theorem cellN_oob_row (b : List (List (Option CellType))) (y x : Nat)
    (h : b.length ≤ y) : cellN b y x = none := by
  unfold cellN
  rw [List.getD_eq_default b [] h]
  rfl

theorem cellN_oob_col (b : List (List (Option CellType))) (y x : Nat)
    (h : (b.getD y []).length ≤ x) : cellN b y x = none := by
  unfold cellN
  exact List.getD_eq_default (b.getD y []) none h

/-- A cell of a board after `setCell` is the written value or an original
cell (no bounds assumptions). -/
theorem cellN_setCell_cases (b : List (List (Option CellType))) (y' x' : Nat)
    (v : Option CellType) (y x : Nat) :
    cellN (setCell b y' x' v) y x = cellN b y x ∨
      cellN (setCell b y' x' v) y x = v := by
  by_cases hy : y = y'
  · subst hy
    rcases lt_or_le y b.length with hylt | hyle
    · by_cases hx : x = x'
      · subst hx
        rcases lt_or_le x (b.getD y []).length with hxlt | hxle
        · right
          rw [cellN_setCell b y x v hylt hxlt, if_pos ⟨rfl, rfl⟩]
        · left
          rw [cellN_oob_col (setCell b y x v) y x
              (by rw [setCell_row_length]; exact hxle),
            cellN_oob_col b y x hxle]
      · left
        unfold cellN setCell
        rw [getD_set_eq b y _ [] hylt, getD_set_ne _ _ _ _ _ fun hh => hx hh.symm]
    · left
      rw [cellN_oob_row (setCell b y x' v) y x
          (by rw [setCell_length]; exact hyle),
        cellN_oob_row b y x hyle]
  · left
    unfold cellN setCell
    rw [getD_set_ne b y' y _ [] fun hh => hy hh.symm]

/-- The per-cell write of `lock_piece`'s stamping loop. -/
def stampStep (cx cy : Int) (color : GColor) (b : List (List (Option CellType)))
    (ij : Nat × Nat) : List (List (Option CellType)) :=
  let x := usizeCast (cx + (ij.2 : Int))
  let y := usizeCast (cy + (ij.1 : Int))
  if y < HEIGHT then setCell b y x (some (CellType.Normal color)) else b

/-- One stamping write leaves a cell alone or makes it `Normal`. -/
theorem stampStep_cases (cx cy : Int) (color : GColor)
    (b : List (List (Option CellType))) (ij : Nat × Nat) (y x : Nat) :
    cellN (stampStep cx cy color b ij) y x = cellN b y x ∨
      cellN (stampStep cx cy color b ij) y x = some (CellType.Normal color) := by
  unfold stampStep
  dsimp only
  split
  · exact cellN_setCell_cases b _ _ _ y x
  · exact Or.inl rfl

/-- The whole stamping loop leaves a cell alone or makes it `Normal`. -/
theorem stampFold_cases (cx cy : Int) (color : GColor) (L : List (Nat × Nat))
    (b : List (List (Option CellType))) (y x : Nat) :
    cellN (L.foldl (stampStep cx cy color) b) y x = cellN b y x ∨
      cellN (L.foldl (stampStep cx cy color) b) y x
        = some (CellType.Normal color) := by
  induction L generalizing b with
  | nil => exact Or.inl rfl
  | cons ij rest ih =>
    rw [List.foldl_cons]
    rcases ih (stampStep cx cy color b ij) with h | h
    · rw [h]
      exact stampStep_cases cx cy color b ij y x
    · exact Or.inr h

theorem stampStep_length (cx cy : Int) (color : GColor)
    (b : List (List (Option CellType))) (ij : Nat × Nat) :
    (stampStep cx cy color b ij).length = b.length := by
  unfold stampStep
  dsimp only
  split
  · exact setCell_length _ _ _ _
  · rfl

theorem stampStep_row_length (cx cy : Int) (color : GColor)
    (b : List (List (Option CellType))) (ij : Nat × Nat) (y : Nat) :
    ((stampStep cx cy color b ij).getD y []).length = (b.getD y []).length := by
  unfold stampStep
  dsimp only
  split
  · exact setCell_row_length _ _ _ _ _
  · rfl

theorem stampFold_length (cx cy : Int) (color : GColor) (L : List (Nat × Nat))
    (b : List (List (Option CellType))) :
    (L.foldl (stampStep cx cy color) b).length = b.length := by
  induction L generalizing b with
  | nil => rfl
  | cons ij rest ih =>
    rw [List.foldl_cons, ih, stampStep_length]

theorem stampFold_row_length (cx cy : Int) (color : GColor) (L : List (Nat × Nat))
    (b : List (List (Option CellType))) (y : Nat) :
    ((L.foldl (stampStep cx cy color) b).getD y []).length
      = (b.getD y []).length := by
  induction L generalizing b with
  | nil => rfl
  | cons ij rest ih =>
    rw [List.foldl_cons, ih, stampStep_row_length]

/-- After the stamping loop, every occupied cell that would be scanned by
`collect_power_ups` (its row cast below `HEIGHT`) is either an out-of-range
read (`none`) or a freshly written `Normal` cell — never a power-up. -/
theorem stampFold_covered (cx cy : Int) (color : GColor) (L : List (Nat × Nat))
    (ij : Nat × Nat) (hij : ij ∈ L) (b : List (List (Option CellType)))
    (hy : usizeCast (cy + (ij.1 : Int)) < HEIGHT) :
    cellN (L.foldl (stampStep cx cy color) b) (usizeCast (cy + (ij.1 : Int)))
        (usizeCast (cx + (ij.2 : Int))) = none ∨
      cellN (L.foldl (stampStep cx cy color) b) (usizeCast (cy + (ij.1 : Int)))
        (usizeCast (cx + (ij.2 : Int))) = some (CellType.Normal color) := by
  obtain ⟨L1, L2, rfl⟩ := List.append_of_mem hij
  rw [List.foldl_append, List.foldl_cons]
  have hstep : stampStep cx cy color (L1.foldl (stampStep cx cy color) b) ij
      = setCell (L1.foldl (stampStep cx cy color) b)
          (usizeCast (cy + (ij.1 : Int))) (usizeCast (cx + (ij.2 : Int)))
          (some (CellType.Normal color)) := by
    unfold stampStep
    dsimp only
    rw [if_pos hy]
  rw [hstep]
  rcases stampFold_cases cx cy color L2
      (setCell (L1.foldl (stampStep cx cy color) b)
        (usizeCast (cy + (ij.1 : Int))) (usizeCast (cx + (ij.2 : Int)))
        (some (CellType.Normal color)))
      (usizeCast (cy + (ij.1 : Int))) (usizeCast (cx + (ij.2 : Int)))
    with hc | hc
  · rw [hc]
    by_cases hylen : usizeCast (cy + (ij.1 : Int))
        < (L1.foldl (stampStep cx cy color) b).length
    · by_cases hxlen : usizeCast (cx + (ij.2 : Int))
          < ((L1.foldl (stampStep cx cy color) b).getD
              (usizeCast (cy + (ij.1 : Int))) []).length
      · right
        rw [cellN_setCell _ _ _ _ hylen hxlen, if_pos ⟨rfl, rfl⟩]
      · left
        exact cellN_oob_col _ _ _ (by rw [setCell_row_length]; omega)
    · left
      exact cellN_oob_row _ _ _ (by rw [setCell_length]; omega)
  · exact Or.inr hc

/-- The collect scan of a lock never finds a power-up: the stamping loop has
already overwritten every cell it will inspect to `Normal` (and any cell the
write missed reads back as out of range, i.e. `none`). This holds for every
session state — power-ups, spawns and randomness included. -/
theorem collectList_stamp_nil (g : Game) : collectList (stampPiece g) = [] := by
  have hb : (stampPiece g).board
      = (occupiedCells g.current.shape).foldl
          (stampStep g.current_x g.current_y g.current.color) g.board := rfl
  have hcur : (stampPiece g).current = g.current := rfl
  have hcx : (stampPiece g).current_x = g.current_x := rfl
  have hcy : (stampPiece g).current_y = g.current_y := rfl
  unfold collectList
  rw [hb, hcur, hcx, hcy, List.filterMap_eq_nil_iff]
  intro ij hij
  dsimp only
  split
  · rename_i hy
    rcases stampFold_covered g.current_x g.current_y g.current.color
        (occupiedCells g.current.shape) ij hij g.board hy with hc | hc
    · rw [hc]
    · rw [hc]
  · rfl

/-- One lock while ghost mode is active decrements the counter by exactly
one and drops ghost mode iff it hits 0 — unconditionally: no hypothesis on
the board or the randomness is needed, because the collect scan of a lock
never finds a power-up (`collectList_stamp_nil`) and neither line clearing,
spawning nor the next-piece promotion touches the ghost fields. -/
theorem lockPiece_ghost_step (g : Game) (now : Nat) (rng : Rng) (tp : TetrominoType)
    (hg : g.ghost_mode = true) (hr : 0 < g.ghost_remaining) :
    (lockPiece g now rng tp).ghost_remaining = g.ghost_remaining - 1 ∧
      ((lockPiece g now rng tp).ghost_mode
        = if g.ghost_remaining - 1 = 0 then false else true) := by
  have hstampM : (stampPiece g).ghost_mode = g.ghost_mode := rfl
  have hstampR : (stampPiece g).ghost_remaining = g.ghost_remaining := rfl
  have hcoll : collectPowerUps (stampPiece g) now rng = stampPiece g :=
    collectPowerUps_of_nil _ _ _ (collectList_stamp_nil g)
  have hLm : (clearLines (stampPiece g) now rng).ghost_mode = true := by
    rw [clearLines_ghost_mode, hstampM, hg]
  have hLr : (clearLines (stampPiece g) now rng).ghost_remaining
      = g.ghost_remaining := by
    rw [clearLines_ghost_remaining, hstampR]
  have hSm : (spawnNewPiece (clearLines (stampPiece g) now rng) tp).ghost_mode
      = true := by
    rw [spawnNewPiece_ghost_mode, hLm]
  have hSr : (spawnNewPiece (clearLines (stampPiece g) now rng) tp).ghost_remaining
      = g.ghost_remaining := by
    rw [spawnNewPiece_ghost_remaining, hLr]
  unfold lockPiece
  dsimp only
  rw [hcoll, hSm, hSr, decide_eq_true hr]
  rw [if_pos (show (true && true) = true from rfl)]
  by_cases hz : g.ghost_remaining - 1 = 0
  · rw [if_pos hz, if_pos hz]
    exact ⟨rfl, rfl⟩
  · rw [if_neg hz, if_neg hz]
    exact ⟨rfl, rfl⟩

/-- **C3.** Ghost activation sets ghost mode with a counter of 3, and from
such a state exactly 3 lock completions bring the counter to 0 and revoke
pass-through — the counter is 2 after the first lock, 1 after the second,
and ghost mode is off after the third — for every board, every randomness
(power-up spawns included) and arbitrary interleaved moves and rotations.
The decrement happens once per lock regardless of what lies under the
locking piece: the stamping loop overwrites the piece's cells before the
collect scan reads them, so no lock can collect a power-up and disturb the
counter. -/
theorem ghost_exactly_three_locks
    (g : Game) (hg : g.ghost_mode = true) (hr : g.ghost_remaining = 3)
    (cs1 cs2 cs3 : List Cmd) (n1 n2 n3 : Nat) (r1 r2 r3 : Rng)
    (t1 t2 t3 : TetrominoType) :
    (∀ (g' : Game) (now' : Nat) (rng' : Rng),
        (activatePowerUp g' now' rng' PowerUpType.Ghost).ghost_mode = true ∧
          (activatePowerUp g' now' rng' PowerUpType.Ghost).ghost_remaining = 3) ∧
      ∀ gA gB gC, gA = lockPiece (applyCmds g cs1) n1 r1 t1 →
        gB = lockPiece (applyCmds gA cs2) n2 r2 t2 →
        gC = lockPiece (applyCmds gB cs3) n3 r3 t3 →
        (gA.ghost_mode = true ∧ gA.ghost_remaining = 2) ∧
          (gB.ghost_mode = true ∧ gB.ghost_remaining = 1) ∧
          (gC.ghost_mode = false ∧ gC.ghost_remaining = 0) := by
  constructor
  · intro g' now' rng'
    exact ⟨rfl, rfl⟩
  · intro gA gB gC hA hB hC
    obtain ⟨-, c1m, c1r⟩ := applyCmds_board_ghost cs1 g
    have s1 := lockPiece_ghost_step (applyCmds g cs1) n1 r1 t1
      (by rw [c1m, hg]) (by rw [c1r, hr]; omega)
    rw [← hA, c1r, hr] at s1
    have hAm : gA.ghost_mode = true := by
      rw [s1.2]
      rfl
    have hAr : gA.ghost_remaining = 2 := s1.1
    obtain ⟨-, c2m, c2r⟩ := applyCmds_board_ghost cs2 gA
    have s2 := lockPiece_ghost_step (applyCmds gA cs2) n2 r2 t2
      (by rw [c2m, hAm]) (by rw [c2r, hAr]; omega)
    rw [← hB, c2r, hAr] at s2
    have hBm : gB.ghost_mode = true := by
      rw [s2.2]
      rfl
    have hBr : gB.ghost_remaining = 1 := s2.1
    obtain ⟨-, c3m, c3r⟩ := applyCmds_board_ghost cs3 gB
    have s3 := lockPiece_ghost_step (applyCmds gB cs3) n3 r3 t3
      (by rw [c3m, hBm]) (by rw [c3r, hBr]; omega)
    rw [← hC, c3r, hBr] at s3
    have hCm : gC.ghost_mode = false := by
      rw [s3.2]
      rfl
    have hCr : gC.ghost_remaining = 0 := s3.1
    exact ⟨⟨hAm, hAr⟩, ⟨hBm, hBr⟩, ⟨hCm, hCr⟩⟩

/-- **C3** (witness). Three concrete locks from a fresh ghost activation:
counter 2, then 1, then ghost mode off. -/
theorem ghost_exactly_three_locks_witness :
    (ghostG1.ghost_mode = true ∧ ghostG1.ghost_remaining = 2) ∧
      (ghostG2.ghost_mode = true ∧ ghostG2.ghost_remaining = 1) ∧
      (ghostG3.ghost_mode = false ∧ ghostG3.ghost_remaining = 0) :=
  (ghost_exactly_three_locks ghostG rfl rfl
      [Cmd.move 1 0] [] [Cmd.rotateCw] 0 1 2 rngOff rngOff rngOff
      TetrominoType.O TetrominoType.T TetrominoType.S).2
    ghostG1 ghostG2 ghostG3 rfl rfl rfl
